import Mathlib

/-!
Verification of `fn-piglatintranslator/lambda.js`.

A shallow embedding of the Lambda in `src/fn-piglatintranslator/lambda.js` and the
properties of its transliterator, language normaliser and dispatcher.

JavaScript strings are sequences of UTF-16 code units; `String.prototype.split("")`,
`length`, `substring` and `charAt` all work on code units.  A string is therefore
embedded as a list of code units, each a natural number.
-/

namespace PigLatin

/-- A JavaScript string: its UTF-16 code units. -/
abbrev JSString := List Nat

/-- The code units of a literal; exact for text inside the Basic Multilingual Plane. -/
def js (s : String) : JSString := s.toList.map Char.toNat

/-- The class `\w` of a regular expression without the `u` flag: `[A-Za-z0-9_]`. -/
def isWordChar (c : Nat) : Bool :=
  (decide (48 ≤ c) && decide (c ≤ 57)) || (decide (65 ≤ c) && decide (c ≤ 90)) ||
    decide (c = 95) || (decide (97 ≤ c) && decide (c ≤ 122))

/-- Truthiness of `char.match(/\W/)` (lambda.js:115) for a one-code-unit string `char`. -/
def matchesNonWord (c : Nat) : Bool := !isWordChar c

/-- The function `translateWordToPigLatin` (lambda.js:131-136):
`word.substring(1) + word.charAt(0) + "ay"`, or `word` itself when `word.length <= 1`. -/
def translateWordToPigLatin (word : JSString) : JSString :=
  if word.length ≤ 1 then word
  else word.drop 1 ++ word.take 1 ++ js "ay"

/-- The two locals of `translateToPigLatin` that the `forEach` callback updates. -/
structure ScanState where
  translation : JSString
  textBuffer : JSString
deriving DecidableEq

/-- The callback passed to `forEach` (lambda.js:114-122). -/
def scanChar (st : ScanState) (char : Nat) : ScanState :=
  if matchesNonWord char then
    { translation := st.translation ++ translateWordToPigLatin st.textBuffer ++ [char],
      textBuffer := [] }
  else
    { st with textBuffer := st.textBuffer ++ [char] }

/-- The tail of `translateToPigLatin` (lambda.js:124-128): a non-empty buffer is flushed. -/
def finishScan (st : ScanState) : JSString :=
  if st.textBuffer ≠ [] then st.translation ++ translateWordToPigLatin st.textBuffer
  else st.translation

/-- The function `translateToPigLatin` (lambda.js:111-129). -/
def translateToPigLatin (message : JSString) : JSString :=
  finishScan (message.foldl scanChar { translation := [], textBuffer := [] })

/-- The words of a text as the specification names them: the maximal runs of consecutive
word characters, that is the non-empty pieces between separators. -/
def words (s : JSString) : List JSString :=
  (s.splitOnP matchesNonWord).filter (fun w => !w.isEmpty)

/-- The number of words of length at least two. -/
def longWordCount (s : JSString) : Nat :=
  (words s).countP (fun w => decide (2 ≤ w.length))

/-- The scan started with an empty translation and the given buffer, read to the end. -/
def flush (buf s : JSString) : JSString :=
  finishScan (s.foldl scanChar { translation := [], textBuffer := buf })

/-- The pieces between separators, the first one extended on the left by the buffer. -/
def pieces (buf s : JSString) : List JSString :=
  (s.splitOnP matchesNonWord).modifyHead (buf ++ ·)

/-- The errors a promise of this program can be rejected with. -/
inductive JSError where
  /-- A `TypeError` raised by the runtime when a property of `undefined` is read. -/
  | typeError
  /-- The rejection of a call to an external service, with the name the service gave it. -/
  | serviceError (name : JSString)
deriving DecidableEq

/-- The object `event.detail` of the inbound event, with the two fields the handler reads. -/
structure InboundEvent where
  message : JSString
  sendTo : JSString
deriving DecidableEq

/-- The variables of `process.env` the program reads; each may be unset (`undefined`). -/
structure ProcessEnv where
  TeamName : Option JSString
  SQSQueueUrl : Option JSString
  EventBusName : Option JSString
  AWS_REGION : Option JSString
deriving DecidableEq

/-- An entry of `data.Languages`; the program reads `LanguageCode` only. -/
structure DominantLanguage where
  LanguageCode : JSString
deriving DecidableEq

/-- The input of `TranslateTextCommand` (lambda.js:162-166). -/
structure TranslateTextInput where
  Text : JSString
  SourceLanguageCode : Option JSString
  TargetLanguageCode : JSString
deriving DecidableEq

/-- The input of `SendMessageCommand` (lambda.js:69-72). -/
structure SendMessageInput where
  QueueUrl : Option JSString
  MessageBody : JSString
deriving DecidableEq

/-- An entry of `eventBridgeParams.Entries` (lambda.js:89-95). -/
structure PutEventsEntry where
  Detail : JSString
  DetailType : JSString
  Resources : List (Option JSString)
  Source : JSString
  EventBusName : Option JSString
deriving DecidableEq

/-- A value handed to `console.log` or `console.error`. -/
inductive LogValue where
  | event (e : InboundEvent)
  | str (s : JSString)
  | languages (data : List DominantLanguage)
  | error (e : JSError)
deriving DecidableEq

/-- The actions of the program that are visible outside it, in the order they happen. -/
inductive Effect where
  | consoleLog (args : List LogValue)
  | consoleError (args : List LogValue)
  /-- The call `comprend.send(new DetectDominantLanguageCommand(..))` on a client of the region. -/
  | comprehendSend (region : Option JSString) (Text : JSString)
  /-- The call `translate.send(new TranslateTextCommand(..))`. -/
  | translateSend (region : Option JSString) (input : TranslateTextInput)
  /-- The call `client.send(new SendMessageCommand(..))` on the queue client. -/
  | sqsSend (region : Option JSString) (input : SendMessageInput)
  /-- The call `client.send(new PutEventsCommand(..))` on the event bus client. -/
  | eventBridgeSend (Entries : List PutEventsEntry)
deriving DecidableEq

/-- The external services: what each `send` settles with, for every input. -/
structure Capabilities where
  detectDominantLanguage : Option JSString → JSString → Except JSError (List DominantLanguage)
  translateText : Option JSString → TranslateTextInput → Except JSError JSString
  sendMessage : Option JSString → SendMessageInput → Except JSError JSString
  putEvents : List PutEventsEntry → Except JSError Unit

/-- A run of an `async` function: the effects it performed, and the value its promise is
fulfilled with or the error it is rejected with. -/
structure Prog (α : Type) where
  effects : List Effect
  result : Except JSError α

namespace Prog

/-- The statement `return a`. -/
def ret {α : Type} (a : α) : Prog α := { effects := [], result := .ok a }

/-- Sequencing: the rest of the body runs only when the first part did not raise. -/
def andThen {α β : Type} (m : Prog α) (f : α → Prog β) : Prog β :=
  match m.result with
  | .ok a => { effects := m.effects ++ (f a).effects, result := (f a).result }
  | .error e => { effects := m.effects, result := .error e }

/-- The statement `throw e`, or a runtime error. -/
def raise {α : Type} (e : JSError) : Prog α := { effects := [], result := .error e }

/-- One visible action that cannot fail, such as `console.log`. -/
def emit (e : Effect) : Prog Unit := { effects := [e], result := .ok () }

/-- An awaited call of an external service: the call is visible, and settles as given. -/
def call {α : Type} (e : Effect) (settled : Except JSError α) : Prog α :=
  { effects := [e], result := settled }

/-- The statement `try`/`catch`: the handler runs when the body raised, with what it raised. -/
def tryCatch {α : Type} (body : Prog α) (onError : JSError → Prog α) : Prog α :=
  match body.result with
  | .ok _ => body
  | .error e => { effects := body.effects ++ (onError e).effects, result := (onError e).result }

/-- A call of an `async` function without `await`: the function runs, its promise is dropped,
and whatever it settles with does not reach the caller. -/
def detached {α : Type} (m : Prog α) : Prog Unit := { effects := m.effects, result := .ok () }

end Prog

instance : Monad Prog where
  pure := Prog.ret
  bind := Prog.andThen

open Prog

/-- The function `getLanguageCode` (lambda.js:138-155); `none` is `undefined`. -/
def getLanguageCode (env : ProcessEnv) (caps : Capabilities) (message : JSString) :
    Prog (Option JSString) :=
  tryCatch
    (do
      let data ← call (.comprehendSend env.AWS_REGION message)
        (caps.detectDominantLanguage env.AWS_REGION message)
      emit (.consoleLog [.languages data])
      -- `data.Languages[0].LanguageCode`: reading a property of `undefined` raises
      match data with
      | first :: _ => pure (some first.LanguageCode)
      | [] => raise .typeError)
    (fun error => do
      emit (.consoleLog [.error error])
      pure none)

/-- The function `translateToEnglish` (lambda.js:157-172); `none` is `undefined`. -/
def translateToEnglish (env : ProcessEnv) (caps : Capabilities) (message : JSString)
    (sourceLanguage : Option JSString) : Prog (Option JSString) :=
  let input : TranslateTextInput :=
    { Text := message, SourceLanguageCode := sourceLanguage, TargetLanguageCode := js "en" }
  tryCatch
    (do
      let TranslatedText ← call (.translateSend env.AWS_REGION input)
        (caps.translateText env.AWS_REGION input)
      pure (some TranslatedText))
    (fun error => do
      emit (.consoleLog [.error error])
      pure none)


/-- A hexadecimal digit in lower case, as a code unit. -/
def hexDigit (n : Nat) : Nat := if n < 10 then 48 + n else 87 + n

/-- The abstract operation `UnicodeEscape` of ECMA-262: a backslash, `u` and four digits. -/
def unicodeEscape (c : Nat) : JSString :=
  [92, 117, hexDigit (c / 4096 % 16), hexDigit (c / 256 % 16), hexDigit (c / 16 % 16),
    hexDigit (c % 16)]

/-- The escape of one code unit that is not half of a surrogate pair (`QuoteJSONString`). -/
def quoteUnit (c : Nat) : JSString :=
  if c = 8 then [92, 98]
  else if c = 9 then [92, 116]
  else if c = 10 then [92, 110]
  else if c = 12 then [92, 102]
  else if c = 13 then [92, 114]
  else if c = 34 then [92, 34]
  else if c = 92 then [92, 92]
  else if c < 32 ∨ (55296 ≤ c ∧ c ≤ 57343) then unicodeEscape c
  else [c]

/-- The body of `QuoteJSONString`: a leading surrogate followed by a trailing one is one code
point and is copied; every other code unit is escaped on its own. -/
def quoteUnits : JSString → JSString
  | [] => []
  | [c] => quoteUnit c
  | c :: d :: rest =>
    if (55296 ≤ c ∧ c ≤ 56319) ∧ (56320 ≤ d ∧ d ≤ 57343) then c :: d :: quoteUnits rest
    else quoteUnit c ++ quoteUnits (d :: rest)

/-- The abstract operation `QuoteJSONString` of ECMA-262. -/
def QuoteJSONString (s : JSString) : JSString := [34] ++ quoteUnits s ++ [34]

/-- The builtin `JSON.stringify` on an object whose own properties, in creation order, hold
strings or `undefined`: a property holding `undefined` is left out. -/
def JSON.stringify (obj : List (JSString × Option JSString)) : JSString :=
  [123] ++
    List.intercalate [44]
      (obj.filterMap fun kv => kv.2.map fun v => QuoteJSONString kv.1 ++ [58] ++ QuoteJSONString v)
    ++ [125]

/-- The function `sendToSQS` (lambda.js:59-78). -/
def sendToSQS (env : ProcessEnv) (caps : Capabilities) (message : JSString) : Prog Unit :=
  let messageToSend : List (JSString × Option JSString) :=
    [(js "translatedMessage", some message), (js "teamName", env.TeamName)]
  let input : SendMessageInput :=
    { QueueUrl := env.SQSQueueUrl, MessageBody := JSON.stringify messageToSend }
  tryCatch
    (do
      let MessageId ← call (.sqsSend env.AWS_REGION input)
        (caps.sendMessage env.AWS_REGION input)
      emit (.consoleLog [.str (js "Success"), .str MessageId]))
    (fun error => emit (.consoleLog [.str (js "Error"), .error error]))

/-- The function `sendToTeams` (lambda.js:80-105). -/
def sendToTeams (env : ProcessEnv) (caps : Capabilities) (message : JSString) : Prog Unit :=
  let messageToSend : List (JSString × Option JSString) :=
    [(js "translatedMessage", some message), (js "teamName", env.TeamName)]
  let Entries : List PutEventsEntry :=
    [{ Detail := JSON.stringify messageToSend,
       DetailType := js "SendToTeams",
       Resources := [env.TeamName],
       Source := js "HTF22",
       EventBusName := env.EventBusName }]
  tryCatch
    (call (.eventBridgeSend Entries) (caps.putEvents Entries))
    (fun error => emit (.consoleError [.error error]))

/-- The function `sendToSendGrid` (lambda.js:107-109), whose body is empty. -/
def sendToSendGrid (_env : ProcessEnv) (_caps : Capabilities) (_message : JSString) :
    Prog Unit :=
  pure ()

/-- Step 2 of `exports.handler` (lambda.js:39-52): the branch on `event.detail.sendTo`.
None of the three calls is awaited. -/
def dispatch (env : ProcessEnv) (caps : Capabilities) (translatedMessage : JSString)
    (destination : JSString) : Prog Unit := do
  emit (.consoleLog [.str destination])
  if destination = js "SQS" then
    detached (sendToSQS env caps translatedMessage)
  else if destination = js "Teams" then
    detached (sendToTeams env caps translatedMessage)
  else if destination = js "SendGrid" then
    detached (sendToSendGrid env caps translatedMessage)
  else
    emit (.consoleLog [.str (js "Invalid destination")])

/-- The call `translateToPigLatin(message)` at lambda.js:35, where `message` may be
`undefined`: `message.split` (lambda.js:114) then raises a `TypeError`. -/
def callTranslateToPigLatin (message : Option JSString) : Prog JSString :=
  match message with
  | some text => pure (translateToPigLatin text)
  | none => raise .typeError

/-- The function `exports.handler` (lambda.js:23-53). -/
def handler (env : ProcessEnv) (caps : Capabilities) (event : InboundEvent) : Prog Unit := do
  emit (.consoleLog [.event event])
  let message := event.message
  let language ← getLanguageCode env caps message
  let message ←
    if language ≠ some (js "en") then translateToEnglish env caps message language
    else pure (some message)
  let translatedMessage ← callTranslateToPigLatin message
  emit (.consoleLog [.str translatedMessage])
  dispatch env caps translatedMessage event.sendTo

/-- The inputs of the calls of the translation service, in order. -/
def translateCalls {α : Type} (r : Prog α) : List TranslateTextInput :=
  r.effects.filterMap fun e => match e with
    | .translateSend _ input => some input
    | _ => none

/-- The inputs of the calls of the queue service, in order. -/
def queueSendCalls {α : Type} (r : Prog α) : List SendMessageInput :=
  r.effects.filterMap fun e => match e with
    | .sqsSend _ input => some input
    | _ => none

/-- The entries of the calls of the event bus, in order. -/
def publishCalls {α : Type} (r : Prog α) : List (List PutEventsEntry) :=
  r.effects.filterMap fun e => match e with
    | .eventBridgeSend entries => some entries
    | _ => none



/-- A configuration with every variable set. -/
def sampleEnv : ProcessEnv :=
  { TeamName := some (js "Rocket"),
    SQSQueueUrl := some (js "https://sqs.example/queue"),
    EventBusName := some (js "bus"),
    AWS_REGION := some (js "eu-west-1") }

/-- Services of which detection answers French and every call succeeds. -/
def frenchCaps : Capabilities :=
  { detectDominantLanguage := fun _ _ => .ok [{ LanguageCode := js "fr" }]
    translateText := fun _ _ => .ok (js "Hello")
    sendMessage := fun _ _ => .ok (js "id-1")
    putEvents := fun _ => .ok () }

/-- Services of which detection answers French and the translation call is rejected. -/
def translationDownCaps : Capabilities :=
  { detectDominantLanguage := fun _ _ => .ok [{ LanguageCode := js "fr" }]
    translateText := fun _ _ => .error (.serviceError (js "ServiceUnavailableException"))
    sendMessage := fun _ _ => .ok (js "id-1")
    putEvents := fun _ => .ok () }

/-- Services of which the detection call is rejected and every other call succeeds. -/
def detectionDownCaps : Capabilities :=
  { detectDominantLanguage := fun _ _ => .error (.serviceError (js "InternalServerException"))
    translateText := fun _ _ => .ok (js "Hello")
    sendMessage := fun _ _ => .ok (js "id-1")
    putEvents := fun _ => .ok () }

/-- Services of which the queue rejects every message. -/
def queueDownCaps : Capabilities :=
  { detectDominantLanguage := fun _ _ => .ok [{ LanguageCode := js "en" }]
    translateText := fun _ _ => .ok (js "Hello")
    sendMessage := fun _ _ => .error (.serviceError (js "QueueDoesNotExist"))
    putEvents := fun _ => .ok () }

/-- The event with the message `Bonjour` for the queue. -/
def bonjourEvent : InboundEvent := { message := js "Bonjour", sendTo := js "SQS" }

/-! ## The transliterator -/

theorem translateWord_nil : translateWordToPigLatin [] = [] := rfl

theorem finishScan_eq (tr buf : JSString) :
    finishScan { translation := tr, textBuffer := buf } = tr ++ translateWordToPigLatin buf := by
  unfold finishScan
  by_cases h : buf = []
  · subst h; simp [translateWord_nil]
  · simp [h]

theorem scan_translation_split (s : JSString) : ∀ tr buf : JSString,
    finishScan (s.foldl scanChar { translation := tr, textBuffer := buf }) = tr ++ flush buf s := by
  induction s with
  | nil => intro tr buf; simp [flush, finishScan_eq]
  | cons c cs ih =>
    intro tr buf
    unfold flush
    simp only [List.foldl_cons, scanChar]
    by_cases hc : matchesNonWord c = true
    · simp only [hc, if_true]
      rw [ih, ih ([] ++ _ ++ _)]
      simp
    · have hc' : matchesNonWord c = false := by simpa using hc
      simp only [hc', Bool.false_eq_true, if_false]
      rw [ih]
      simp [flush]

theorem translate_eq_flush (s : JSString) : translateToPigLatin s = flush [] s := rfl

theorem flush_nil (buf : JSString) : flush buf [] = translateWordToPigLatin buf := by
  simp [flush, finishScan_eq]

theorem flush_cons_sep (buf cs : JSString) (c : Nat) (hc : matchesNonWord c = true) :
    flush buf (c :: cs) = translateWordToPigLatin buf ++ c :: flush [] cs := by
  unfold flush
  simp only [List.foldl_cons, scanChar, hc, if_true]
  rw [scan_translation_split]
  simp [flush]

theorem flush_cons_word (buf cs : JSString) (c : Nat) (hc : matchesNonWord c = false) :
    flush buf (c :: cs) = flush (buf ++ [c]) cs := by
  unfold flush
  simp [List.foldl_cons, scanChar, hc]


theorem flush_all_word (w : JSString) : ∀ buf : JSString, (∀ c ∈ w, isWordChar c = true) →
    flush buf w = translateWordToPigLatin (buf ++ w) := by
  induction w with
  | nil => intro buf _; simp [flush_nil]
  | cons c cs ih =>
    intro buf h
    have hc : matchesNonWord c = false := by simp [matchesNonWord, h c (List.mem_cons_self _ _)]
    rw [flush_cons_word _ _ _ hc, ih _ (fun x hx => h x (List.mem_cons_of_mem _ hx))]
    simp

theorem flush_append_sep (a : JSString) (c : Nat) (b : JSString) (hc : matchesNonWord c = true) :
    ∀ buf : JSString, flush buf (a ++ c :: b) = flush buf a ++ c :: flush [] b := by
  induction a with
  | nil => intro buf; simp [flush_cons_sep _ _ _ hc, flush_nil]
  | cons x xs ih =>
    intro buf
    by_cases hx : matchesNonWord x = true
    · simp [flush_cons_sep _ _ _ hx, ih]
    · have hx' : matchesNonWord x = false := by simpa using hx
      simp [flush_cons_word _ _ _ hx', ih]

theorem translateWord_length (w : JSString) :
    (translateWordToPigLatin w).length = w.length + 2 * (if 2 ≤ w.length then 1 else 0) := by
  unfold translateWordToPigLatin
  by_cases h : w.length ≤ 1
  · have : ¬ 2 ≤ w.length := by omega
    simp [h, this]
  · have h2 : 2 ≤ w.length := by omega
    simp only [h, if_false, h2, if_true, List.length_append, List.length_drop, List.length_take]
    have : (js "ay").length = 2 := rfl
    omega

theorem pieces_nil (buf : JSString) : pieces buf [] = [buf] := by
  simp [pieces]

theorem pieces_cons_sep (buf cs : JSString) (c : Nat) (hc : matchesNonWord c = true) :
    pieces buf (c :: cs) = buf :: pieces [] cs := by
  have h : pieces [] cs = cs.splitOnP matchesNonWord := by
    simp only [pieces, List.nil_append]
    cases cs.splitOnP matchesNonWord <;> rfl
  rw [h]
  simp [pieces, hc]

theorem pieces_cons_word (buf cs : JSString) (c : Nat) (hc : matchesNonWord c = false) :
    pieces buf (c :: cs) = pieces (buf ++ [c]) cs := by
  simp only [pieces, List.splitOnP_cons, hc, Bool.false_eq_true, if_false,
    List.modifyHead_modifyHead]
  congr 1
  funext x
  simp

theorem pieces_empty_buffer (s : JSString) : pieces [] s = s.splitOnP matchesNonWord := by
  simp only [pieces, List.nil_append]
  cases s.splitOnP matchesNonWord <;> rfl

theorem flush_length (s : JSString) : ∀ buf : JSString,
    (flush buf s).length =
      buf.length + s.length + 2 * (pieces buf s).countP (fun w => decide (2 ≤ w.length)) := by
  induction s with
  | nil =>
    intro buf
    rw [flush_nil, pieces_nil, translateWord_length]
    by_cases h : 2 ≤ buf.length <;> simp [h]
  | cons c cs ih =>
    intro buf
    by_cases hc : matchesNonWord c = true
    · rw [flush_cons_sep _ _ _ hc, pieces_cons_sep _ _ _ hc]
      simp only [List.length_append, List.length_cons, ih, translateWord_length,
        List.countP_cons, List.length_nil]
      by_cases h : 2 ≤ buf.length <;> simp [h] <;> omega
    · have hc' : matchesNonWord c = false := by simpa using hc
      rw [flush_cons_word _ _ _ hc', pieces_cons_word _ _ _ hc', ih]
      simp only [List.length_append, List.length_cons, List.length_nil]
      omega

theorem longWordCount_eq (s : JSString) :
    longWordCount s = (pieces [] s).countP (fun w => decide (2 ≤ w.length)) := by
  rw [pieces_empty_buffer]
  unfold longWordCount words
  rw [List.countP_filter]
  apply List.countP_congr
  intro w _
  cases w with
  | nil => simp
  | cons x xs => simp

theorem translate_length (s : JSString) :
    (translateToPigLatin s).length = s.length + 2 * longWordCount s := by
  rw [translate_eq_flush, flush_length, longWordCount_eq]
  simp


theorem translateWord_isWord (w : JSString) (h : ∀ c ∈ w, isWordChar c = true) :
    ∀ c ∈ translateWordToPigLatin w, isWordChar c = true := by
  intro c hc
  unfold translateWordToPigLatin at hc
  by_cases hl : w.length ≤ 1
  · simp only [hl, if_true] at hc
    exact h c hc
  · simp only [hl, if_false, List.mem_append] at hc
    rcases hc with (hc | hc) | hc
    · exact h c (List.mem_of_mem_drop hc)
    · exact h c (List.mem_of_mem_take hc)
    · have : c = 97 ∨ c = 121 := by simpa [js] using hc
      rcases this with rfl | rfl <;> decide

theorem translateWord_long_iff (w : JSString) :
    2 ≤ (translateWordToPigLatin w).length ↔ 2 ≤ w.length := by
  rw [translateWord_length]
  by_cases h : 2 ≤ w.length <;> simp [h]

theorem splitOnP_flush (s : JSString) : ∀ buf : JSString, (∀ c ∈ buf, isWordChar c = true) →
    (flush buf s).splitOnP matchesNonWord = (pieces buf s).map translateWordToPigLatin := by
  induction s with
  | nil =>
    intro buf hbuf
    rw [flush_nil, pieces_nil]
    apply List.splitOnP_eq_single
    intro c hc
    simp [matchesNonWord, translateWord_isWord buf hbuf c hc]
  | cons c cs ih =>
    intro buf hbuf
    by_cases hc : matchesNonWord c = true
    · rw [flush_cons_sep _ _ _ hc, pieces_cons_sep _ _ _ hc, List.splitOnP_first _ _ _ c hc,
        ih [] (by simp)]
      · rfl
      · intro x hx
        simp [matchesNonWord, translateWord_isWord buf hbuf x hx]
    · have hc' : matchesNonWord c = false := by simpa using hc
      rw [flush_cons_word _ _ _ hc', pieces_cons_word _ _ _ hc']
      apply ih
      intro x hx
      rcases List.mem_append.mp hx with hx | hx
      · exact hbuf x hx
      · have : x = c := by simpa using hx
        subst this
        simpa [matchesNonWord] using hc'

theorem longWordCount_translate (s : JSString) :
    longWordCount (translateToPigLatin s) = longWordCount s := by
  rw [longWordCount_eq, longWordCount_eq, pieces_empty_buffer, translate_eq_flush,
    splitOnP_flush s [] (by simp), List.countP_map]
  apply List.countP_congr
  intro w _
  simp [translateWord_long_iff]

theorem flush_short (s : JSString) : ∀ buf : JSString,
    (∀ w ∈ pieces buf s, w.length ≤ 1) → flush buf s = buf ++ s := by
  induction s with
  | nil =>
    intro buf h
    have hb : buf.length ≤ 1 := h buf (by simp [pieces_nil])
    simp [flush_nil, translateWordToPigLatin, hb]
  | cons c cs ih =>
    intro buf h
    by_cases hc : matchesNonWord c = true
    · rw [pieces_cons_sep _ _ _ hc] at h
      have hb : buf.length ≤ 1 := h buf (List.mem_cons_self _ _)
      rw [flush_cons_sep _ _ _ hc, ih [] (fun w hw => h w (List.mem_cons_of_mem _ hw))]
      simp [translateWordToPigLatin, hb]
    · have hc' : matchesNonWord c = false := by simpa using hc
      rw [pieces_cons_word _ _ _ hc'] at h
      rw [flush_cons_word _ _ _ hc', ih _ h]
      simp

theorem words_short_iff_pieces (s : JSString) :
    (∀ w ∈ words s, w.length ≤ 1) ↔ ∀ w ∈ pieces [] s, w.length ≤ 1 := by
  rw [pieces_empty_buffer]
  unfold words
  constructor
  · intro h w hw
    cases w with
    | nil => simp
    | cons x xs => exact h _ (List.mem_filter.mpr ⟨hw, by simp⟩)
  · intro h w hw
    exact h w (List.mem_filter.mp hw).1

theorem words_short_iff_count (s : JSString) :
    (∀ w ∈ words s, w.length ≤ 1) ↔ longWordCount s = 0 := by
  unfold longWordCount
  rw [List.countP_eq_zero]
  constructor
  · intro h w hw
    have := h w hw
    simp only [decide_eq_true_eq]
    omega
  · intro h w hw
    have := h w hw
    simp only [decide_eq_true_eq] at this
    omega

theorem translate_short (s : JSString) (h : ∀ w ∈ words s, w.length ≤ 1) :
    translateToPigLatin s = s := by
  rw [translate_eq_flush, flush_short s [] ((words_short_iff_pieces s).mp h)]
  simp

theorem translate_twice_iff (s : JSString) :
    translateToPigLatin (translateToPigLatin s) = translateToPigLatin s ↔
      ∀ w ∈ words s, w.length ≤ 1 := by
  constructor
  · intro h
    have hl := congrArg List.length h
    rw [translate_length, longWordCount_translate] at hl
    rw [words_short_iff_count]
    omega
  · intro h
    rw [translate_short s h, translate_short s h]


/-! ## The handler -/

theorem Prog.bind_eq {α β : Type} (m : Prog α) (f : α → Prog β) : m >>= f = Prog.andThen m f := rfl

theorem Prog.pure_eq {α : Type} (a : α) : (pure a : Prog α) = Prog.ret a := rfl

theorem sendToSQS_result (env : ProcessEnv) (caps : Capabilities) (m : JSString) :
    (sendToSQS env caps m).result = .ok () := by
  unfold sendToSQS
  cases h : caps.sendMessage env.AWS_REGION
    { QueueUrl := env.SQSQueueUrl,
      MessageBody := JSON.stringify [(js "translatedMessage", some m), (js "teamName", env.TeamName)] } <;>
    simp [Prog.bind_eq, Prog.andThen, Prog.tryCatch, Prog.call, Prog.emit, h]

theorem sendToSQS_calls (env : ProcessEnv) (caps : Capabilities) (m : JSString) :
    queueSendCalls (sendToSQS env caps m) =
      [{ QueueUrl := env.SQSQueueUrl,
         MessageBody := JSON.stringify
          [(js "translatedMessage", some m), (js "teamName", env.TeamName)] }] ∧
    publishCalls (sendToSQS env caps m) = [] ∧ translateCalls (sendToSQS env caps m) = [] := by
  unfold sendToSQS
  cases h : caps.sendMessage env.AWS_REGION
    { QueueUrl := env.SQSQueueUrl,
      MessageBody := JSON.stringify [(js "translatedMessage", some m), (js "teamName", env.TeamName)] } <;>
    simp [Prog.bind_eq, Prog.andThen, Prog.tryCatch, Prog.call, Prog.emit, h, queueSendCalls,
      publishCalls, translateCalls]

theorem sendToTeams_calls (env : ProcessEnv) (caps : Capabilities) (m : JSString) :
    queueSendCalls (sendToTeams env caps m) = [] ∧
    publishCalls (sendToTeams env caps m) =
      [[{ Detail := JSON.stringify
            [(js "translatedMessage", some m), (js "teamName", env.TeamName)],
          DetailType := js "SendToTeams",
          Resources := [env.TeamName],
          Source := js "HTF22",
          EventBusName := env.EventBusName }]] ∧
    translateCalls (sendToTeams env caps m) = [] := by
  unfold sendToTeams
  cases h : caps.putEvents
    [{ Detail := JSON.stringify [(js "translatedMessage", some m), (js "teamName", env.TeamName)],
       DetailType := js "SendToTeams",
       Resources := [env.TeamName],
       Source := js "HTF22",
       EventBusName := env.EventBusName }] <;>
    simp [Prog.andThen, Prog.tryCatch, Prog.call, Prog.emit, h, queueSendCalls,
      publishCalls, translateCalls]

theorem dispatch_result (env : ProcessEnv) (caps : Capabilities) (m d : JSString) :
    (dispatch env caps m d).result = .ok () := by
  unfold dispatch
  simp only [Prog.bind_eq, Prog.andThen, Prog.emit]
  split_ifs <;> rfl

theorem dispatch_calls (env : ProcessEnv) (caps : Capabilities) (m d : JSString) :
    queueSendCalls (dispatch env caps m d) =
      (if d = js "SQS" then
        [{ QueueUrl := env.SQSQueueUrl,
           MessageBody := JSON.stringify
            [(js "translatedMessage", some m), (js "teamName", env.TeamName)] }]
      else []) ∧
    publishCalls (dispatch env caps m d) =
      (if d = js "Teams" then
        [[{ Detail := JSON.stringify
              [(js "translatedMessage", some m), (js "teamName", env.TeamName)],
            DetailType := js "SendToTeams",
            Resources := [env.TeamName],
            Source := js "HTF22",
            EventBusName := env.EventBusName }]]
      else []) ∧
    translateCalls (dispatch env caps m d) = [] := by
  obtain ⟨hq1, hq2, hq3⟩ := sendToSQS_calls env caps m
  obtain ⟨ht1, ht2, ht3⟩ := sendToTeams_calls env caps m
  have hTS : ¬ js "Teams" = js "SQS" := by decide
  have hGS : ¬ js "SendGrid" = js "SQS" := by decide
  have hGT : ¬ js "SendGrid" = js "Teams" := by decide
  have hST : ¬ js "SQS" = js "Teams" := by decide
  simp only [queueSendCalls, publishCalls, translateCalls] at hq1 hq2 hq3 ht1 ht2 ht3 ⊢
  unfold dispatch
  simp only [Prog.bind_eq, Prog.andThen, Prog.emit, Prog.detached]
  by_cases h1 : d = js "SQS"
  · subst h1
    simp only [if_true, if_neg hST, List.singleton_append, List.filterMap_cons]
    exact ⟨hq1, hq2, hq3⟩
  · by_cases h2 : d = js "Teams"
    · subst h2
      simp only [if_true, if_neg hTS, List.singleton_append, List.filterMap_cons]
      exact ⟨ht1, ht2, ht3⟩
    · by_cases h3 : d = js "SendGrid"
      · subst h3
        simp [hGS, hGT, sendToSendGrid, Prog.pure_eq, Prog.ret]
      · simp [h1, h2, h3, Prog.emit]


theorem getLanguageCode_detected (env : ProcessEnv) (caps : Capabilities) (message : JSString)
    (first : DominantLanguage) (rest : List DominantLanguage)
    (h : caps.detectDominantLanguage env.AWS_REGION message = .ok (first :: rest)) :
    getLanguageCode env caps message =
      { effects := [.comprehendSend env.AWS_REGION message,
                    .consoleLog [.languages (first :: rest)]],
        result := .ok (some first.LanguageCode) } := by
  simp [getLanguageCode, Prog.bind_eq, Prog.pure_eq, Prog.andThen, Prog.tryCatch, Prog.call,
    Prog.emit, Prog.ret, h]

theorem getLanguageCode_empty (env : ProcessEnv) (caps : Capabilities) (message : JSString)
    (h : caps.detectDominantLanguage env.AWS_REGION message = .ok []) :
    getLanguageCode env caps message =
      { effects := [.comprehendSend env.AWS_REGION message, .consoleLog [.languages []],
                    .consoleLog [.error .typeError]],
        result := .ok none } := by
  simp [getLanguageCode, Prog.bind_eq, Prog.pure_eq, Prog.andThen, Prog.tryCatch, Prog.call,
    Prog.emit, Prog.ret, Prog.raise, h]

theorem getLanguageCode_rejected (env : ProcessEnv) (caps : Capabilities) (message : JSString)
    (e : JSError) (h : caps.detectDominantLanguage env.AWS_REGION message = .error e) :
    getLanguageCode env caps message =
      { effects := [.comprehendSend env.AWS_REGION message, .consoleLog [.error e]],
        result := .ok none } := by
  simp [getLanguageCode, Prog.bind_eq, Prog.pure_eq, Prog.andThen, Prog.tryCatch, Prog.call,
    Prog.emit, Prog.ret, h]

theorem translateToEnglish_fulfilled (env : ProcessEnv) (caps : Capabilities)
    (message : JSString) (source : Option JSString) (text : JSString)
    (h : caps.translateText env.AWS_REGION
      { Text := message, SourceLanguageCode := source, TargetLanguageCode := js "en" } =
        .ok text) :
    translateToEnglish env caps message source =
      { effects := [.translateSend env.AWS_REGION
          { Text := message, SourceLanguageCode := source, TargetLanguageCode := js "en" }],
        result := .ok (some text) } := by
  simp [translateToEnglish, Prog.bind_eq, Prog.pure_eq, Prog.andThen, Prog.tryCatch, Prog.call,
    Prog.ret, h]

theorem translateToEnglish_rejected (env : ProcessEnv) (caps : Capabilities)
    (message : JSString) (source : Option JSString) (e : JSError)
    (h : caps.translateText env.AWS_REGION
      { Text := message, SourceLanguageCode := source, TargetLanguageCode := js "en" } =
        .error e) :
    translateToEnglish env caps message source =
      { effects := [.translateSend env.AWS_REGION
          { Text := message, SourceLanguageCode := source, TargetLanguageCode := js "en" },
          .consoleLog [.error e]],
        result := .ok none } := by
  simp [translateToEnglish, Prog.bind_eq, Prog.pure_eq, Prog.andThen, Prog.tryCatch, Prog.call,
    Prog.emit, Prog.ret, h]

/-- The handler once the language code and the outcome of normalisation are known. -/
theorem handler_english (env : ProcessEnv) (caps : Capabilities) (event : InboundEvent)
    (pre : List Effect)
    (h : getLanguageCode env caps event.message =
      { effects := pre, result := .ok (some (js "en")) }) :
    handler env caps event =
      { effects := [.consoleLog [.event event]] ++ pre ++
          [.consoleLog [.str (translateToPigLatin event.message)]] ++
          (dispatch env caps (translateToPigLatin event.message) event.sendTo).effects,
        result := .ok () } := by
  simp [handler, Prog.bind_eq, Prog.pure_eq, Prog.andThen, Prog.emit, Prog.ret, h,
    callTranslateToPigLatin, dispatch_result]

theorem handler_translated (env : ProcessEnv) (caps : Capabilities) (event : InboundEvent)
    (pre mid : List Effect) (language : Option JSString) (text : JSString)
    (hne : language ≠ some (js "en"))
    (h : getLanguageCode env caps event.message = { effects := pre, result := .ok language })
    (ht : translateToEnglish env caps event.message language =
      { effects := mid, result := .ok (some text) }) :
    handler env caps event =
      { effects := [.consoleLog [.event event]] ++ pre ++ mid ++
          [.consoleLog [.str (translateToPigLatin text)]] ++
          (dispatch env caps (translateToPigLatin text) event.sendTo).effects,
        result := .ok () } := by
  simp [handler, Prog.bind_eq, Prog.pure_eq, Prog.andThen, Prog.emit, Prog.ret, h, ht, hne,
    callTranslateToPigLatin, dispatch_result]

theorem handler_untranslated (env : ProcessEnv) (caps : Capabilities) (event : InboundEvent)
    (pre mid : List Effect) (language : Option JSString)
    (hne : language ≠ some (js "en"))
    (h : getLanguageCode env caps event.message = { effects := pre, result := .ok language })
    (ht : translateToEnglish env caps event.message language =
      { effects := mid, result := .ok none }) :
    handler env caps event =
      { effects := [.consoleLog [.event event]] ++ pre ++ mid, result := .error .typeError } := by
  simp [handler, Prog.bind_eq, Prog.pure_eq, Prog.andThen, Prog.emit, Prog.ret, h, ht, hne,
    callTranslateToPigLatin, Prog.raise]

theorem words_of_separators (t : JSString) (h : ∀ c ∈ t, matchesNonWord c = true) :
    words t = [] := by
  induction t with
  | nil => rfl
  | cons c cs ih =>
    have hc : matchesNonWord c = true := h c (List.mem_cons_self _ _)
    have hcs := ih (fun x hx => h x (List.mem_cons_of_mem _ hx))
    unfold words at hcs ⊢
    simp [hc, hcs]

theorem words_single (c : Nat) : ∀ w ∈ words [c], w.length ≤ 1 := by
  intro w hw
  unfold words at hw
  by_cases hc : matchesNonWord c = true
  · simp [hc] at hw
  · have hc' : matchesNonWord c = false := by simpa using hc
    simp [hc'] at hw
    simp [hw]

/-- Every run of the handler either raises a `TypeError` before any delivery call, or
completes after dispatching the transliteration of some text. -/
theorem handler_delivery (env : ProcessEnv) (caps : Capabilities) (event : InboundEvent) :
    ((handler env caps event).result = .ok () ∧
        ∃ text : JSString,
          queueSendCalls (handler env caps event) =
              queueSendCalls (dispatch env caps text event.sendTo) ∧
            publishCalls (handler env caps event) =
              publishCalls (dispatch env caps text event.sendTo)) ∨
      ((handler env caps event).result = .error .typeError ∧
        queueSendCalls (handler env caps event) = [] ∧
        publishCalls (handler env caps event) = []) := by
  have key : ∀ (pre : List Effect) (language : Option JSString),
      getLanguageCode env caps event.message = { effects := pre, result := .ok language } →
      queueSendCalls ({ effects := pre, result := .ok () } : Prog Unit) = [] →
      publishCalls ({ effects := pre, result := .ok () } : Prog Unit) = [] →
      ((handler env caps event).result = .ok () ∧
        ∃ text : JSString,
          queueSendCalls (handler env caps event) =
              queueSendCalls (dispatch env caps text event.sendTo) ∧
            publishCalls (handler env caps event) =
              publishCalls (dispatch env caps text event.sendTo)) ∨
      ((handler env caps event).result = .error .typeError ∧
        queueSendCalls (handler env caps event) = [] ∧
        publishCalls (handler env caps event) = []) := by
    intro pre language hg hq hp
    simp only [queueSendCalls, publishCalls] at hq hp
    by_cases hen : language = some (js "en")
    · subst hen
      left
      rw [handler_english env caps event pre hg]
      refine ⟨rfl, translateToPigLatin event.message, ?_, ?_⟩ <;>
        simp [queueSendCalls, publishCalls, hq, hp]
    · cases ht : caps.translateText env.AWS_REGION
        { Text := event.message, SourceLanguageCode := language,
          TargetLanguageCode := js "en" } with
      | ok text =>
        left
        rw [handler_translated env caps event pre _ language text hen hg
          (translateToEnglish_fulfilled env caps event.message language text ht)]
        refine ⟨rfl, translateToPigLatin text, ?_, ?_⟩ <;>
          simp [queueSendCalls, publishCalls, hq, hp]
      | error e =>
        right
        rw [handler_untranslated env caps event pre _ language hen hg
          (translateToEnglish_rejected env caps event.message language e ht)]
        refine ⟨rfl, ?_, ?_⟩ <;> simp [queueSendCalls, publishCalls, hq, hp]
  cases hd : caps.detectDominantLanguage env.AWS_REGION event.message with
  | error e =>
    exact key _ _ (getLanguageCode_rejected env caps event.message e hd)
      (by simp [queueSendCalls]) (by simp [publishCalls])
  | ok data =>
    cases data with
    | nil =>
      exact key _ _ (getLanguageCode_empty env caps event.message hd)
        (by simp [queueSendCalls]) (by simp [publishCalls])
    | cons first rest =>
      exact key _ _ (getLanguageCode_detected env caps event.message first rest hd)
        (by simp [queueSendCalls]) (by simp [publishCalls])

/-! ## The claims on the transliterator -/

/-- Claim C1: a string of at least two code units, all of them word characters, is
transliterated to itself without its first code unit, then that first code unit, then `ay`;
no code unit is changed, so the case of every letter stays as it was. -/
theorem translateToPigLatin_word (w : JSString) (hlen : 2 ≤ w.length)
    (hword : ∀ c ∈ w, isWordChar c = true) :
    ∃ first rest, w = first :: rest ∧
      translateToPigLatin w = rest ++ [first] ++ js "ay" := by
  cases w with
  | nil => simp at hlen
  | cons first rest =>
    refine ⟨first, rest, rfl, ?_⟩
    rw [translate_eq_flush, flush_all_word _ _ hword]
    have hl : ¬ (first :: rest).length ≤ 1 := by omega
    simp only [List.nil_append]
    unfold translateWordToPigLatin
    rw [if_neg hl]
    simp

/-- Witness of C1 at the word `Cat`, whose capital letter ends up inside the word. -/
theorem translateToPigLatin_word_witness :
    2 ≤ (js "Cat").length ∧ (∀ c ∈ js "Cat", isWordChar c = true) ∧
      ∃ first rest, js "Cat" = first :: rest ∧
        translateToPigLatin (js "Cat") = rest ++ [first] ++ js "ay" :=
  ⟨by decide, by decide, translateToPigLatin_word (js "Cat") (by decide) (by decide)⟩

/-- Claim C2: a separator is copied unchanged between the transliterations of the texts on
its two sides, an empty run of word characters contributes nothing, and `Hello, world!`
becomes `elloHay, orldway!`. -/
theorem translateToPigLatin_separator (a b : JSString) (c : Nat)
    (hsep : matchesNonWord c = true) :
    translateToPigLatin (a ++ c :: b) = translateToPigLatin a ++ c :: translateToPigLatin b ∧
      translateWordToPigLatin [] = [] ∧
      translateToPigLatin (js "Hello, world!") = js "elloHay, orldway!" := by
  refine ⟨?_, rfl, by decide⟩
  simp only [translate_eq_flush]
  exact flush_append_sep a c b hsep []

/-- Witness of C2 at the comma of `Hello, world!`. -/
theorem translateToPigLatin_separator_witness :
    matchesNonWord 44 = true ∧
      translateToPigLatin (js "Hello" ++ 44 :: js " world!") =
        translateToPigLatin (js "Hello") ++ 44 :: translateToPigLatin (js " world!") :=
  ⟨by decide, (translateToPigLatin_separator (js "Hello") (js " world!") 44 (by decide)).1⟩

/-- Claim C3: the output is longer than the input by two code units for each word of
length at least two. -/
theorem translateToPigLatin_length (s : JSString) :
    (translateToPigLatin s).length = s.length + 2 * longWordCount s :=
  translate_length s

/-- Claim C4: a string all of whose words have length at most one is left unchanged; this
covers the empty string, the strings of separators only, the strings of one code unit and
`a b c`. -/
theorem translateToPigLatin_short_words (s : JSString) (hshort : ∀ w ∈ words s, w.length ≤ 1) :
    translateToPigLatin s = s ∧
      translateToPigLatin [] = [] ∧
      (∀ t : JSString, (∀ c ∈ t, matchesNonWord c = true) → translateToPigLatin t = t) ∧
      (∀ c : Nat, translateToPigLatin [c] = [c]) ∧
      translateToPigLatin (js "a b c") = js "a b c" := by
  refine ⟨translate_short s hshort, rfl, ?_, ?_, by decide⟩
  · intro t ht
    apply translate_short
    rw [words_of_separators t ht]
    simp
  · intro c
    exact translate_short [c] (words_single c)

/-- Witness of C4 at `a b c`. -/
theorem translateToPigLatin_short_words_witness :
    (∀ w ∈ words (js "a b c"), w.length ≤ 1) ∧
      translateToPigLatin (js "a b c") = js "a b c" :=
  ⟨by decide, (translateToPigLatin_short_words (js "a b c") (by decide)).1⟩

/-- Claim C5: transliterating twice gives the same as transliterating once exactly when
every word has length at most one; it does not for `cat`. -/
theorem translateToPigLatin_twice (s : JSString) :
    (translateToPigLatin (translateToPigLatin s) = translateToPigLatin s ↔
        ∀ w ∈ words s, w.length ≤ 1) ∧
      translateToPigLatin (translateToPigLatin (js "cat")) ≠ translateToPigLatin (js "cat") :=
  ⟨translate_twice_iff s, by decide⟩

/-! ## The claims on the handler -/

/-- Claim C6: when detection succeeds and its first, highest ranked, code is `en`, the
handler makes no translation call and transliterates the message of the event; when the code
is another one and translation succeeds, it makes exactly one translation call, with the
message, that code and the target `en`, and transliterates the text that call returned. -/
theorem handler_translates_unless_english (env : ProcessEnv) (caps : Capabilities)
    (event : InboundEvent) (first : DominantLanguage) (rest : List DominantLanguage)
    (hdetect : caps.detectDominantLanguage env.AWS_REGION event.message = .ok (first :: rest)) :
    (first.LanguageCode = js "en" →
      translateCalls (handler env caps event) = [] ∧
      (handler env caps event).result = .ok () ∧
      (handler env caps event).effects =
        [.consoleLog [.event event],
         .comprehendSend env.AWS_REGION event.message,
         .consoleLog [.languages (first :: rest)],
         .consoleLog [.str (translateToPigLatin event.message)]] ++
        (dispatch env caps (translateToPigLatin event.message) event.sendTo).effects) ∧
    (first.LanguageCode ≠ js "en" → ∀ text : JSString,
      caps.translateText env.AWS_REGION
        { Text := event.message, SourceLanguageCode := some first.LanguageCode,
          TargetLanguageCode := js "en" } = .ok text →
      translateCalls (handler env caps event) =
        [{ Text := event.message, SourceLanguageCode := some first.LanguageCode,
           TargetLanguageCode := js "en" }] ∧
      (handler env caps event).result = .ok () ∧
      (handler env caps event).effects =
        [.consoleLog [.event event],
         .comprehendSend env.AWS_REGION event.message,
         .consoleLog [.languages (first :: rest)],
         .translateSend env.AWS_REGION
           { Text := event.message, SourceLanguageCode := some first.LanguageCode,
             TargetLanguageCode := js "en" },
         .consoleLog [.str (translateToPigLatin text)]] ++
        (dispatch env caps (translateToPigLatin text) event.sendTo).effects) := by
  have hg := getLanguageCode_detected env caps event.message first rest hdetect
  constructor
  · intro hen
    rw [hen] at hg
    have hd := (dispatch_calls env caps (translateToPigLatin event.message) event.sendTo).2.2
    simp only [translateCalls] at hd
    rw [handler_english env caps event _ hg]
    refine ⟨?_, rfl, by simp⟩
    simp [translateCalls, hd]
  · intro hne text ht
    have hne' : some first.LanguageCode ≠ some (js "en") := by simpa using hne
    have hd := (dispatch_calls env caps (translateToPigLatin text) event.sendTo).2.2
    simp only [translateCalls] at hd
    rw [handler_translated env caps event _ _ _ text hne' hg
      (translateToEnglish_fulfilled env caps event.message _ text ht)]
    refine ⟨?_, rfl, by simp⟩
    simp [translateCalls, hd]

/-- Witness of C6: `Bonjour`, detected as French, is translated once and the translation
`Hello` is what is transliterated. -/
theorem handler_translates_unless_english_witness :
    frenchCaps.detectDominantLanguage sampleEnv.AWS_REGION bonjourEvent.message =
        .ok [{ LanguageCode := js "fr" }] ∧
      translateCalls (handler sampleEnv frenchCaps bonjourEvent) =
        [{ Text := js "Bonjour", SourceLanguageCode := some (js "fr"),
           TargetLanguageCode := js "en" }] ∧
      Effect.consoleLog [.str (js "elloHay")] ∈
        (handler sampleEnv frenchCaps bonjourEvent).effects :=
  ⟨rfl,
    ((handler_translates_unless_english sampleEnv frenchCaps bonjourEvent
      { LanguageCode := js "fr" } [] rfl).2 (by decide) (js "Hello") rfl).1,
    by decide⟩

/-- The dispatch step on its own (lambda.js:39-52), for every text and every label: the
queue call is made exactly once if and only if the label is `SQS`, the publish call exactly
once if and only if the label is `Teams`, never both, and none for any other label. -/
theorem dispatch_by_destination (env : ProcessEnv) (caps : Capabilities)
    (text destination : JSString) :
    ((queueSendCalls (dispatch env caps text destination)).length = 1 ↔
        destination = js "SQS") ∧
      (destination ≠ js "SQS" → queueSendCalls (dispatch env caps text destination) = []) ∧
      ((publishCalls (dispatch env caps text destination)).length = 1 ↔
        destination = js "Teams") ∧
      (destination ≠ js "Teams" → publishCalls (dispatch env caps text destination) = []) ∧
      ¬ (queueSendCalls (dispatch env caps text destination) ≠ [] ∧
          publishCalls (dispatch env caps text destination) ≠ []) := by
  have hST : ¬ js "SQS" = js "Teams" := by decide
  have hTS : ¬ js "Teams" = js "SQS" := by decide
  obtain ⟨dq, dp, _⟩ := dispatch_calls env caps text destination
  rw [dq, dp]
  by_cases h1 : destination = js "SQS"
  · simp [h1, hST]
  · by_cases h2 : destination = js "Teams"
    · simp [h2, hTS]
    · simp [h1, h2]

/-- What holds of every run of the handler, raised or not: a queue call happens only for the
label `SQS` and a publish call only for `Teams`, each at most once and never both, so that
any other label, `SendGrid` and `Unknown` included, leads to no delivery call. -/
theorem handler_delivery_only_by_destination (env : ProcessEnv) (caps : Capabilities)
    (event : InboundEvent) :
    (queueSendCalls (handler env caps event) ≠ [] → event.sendTo = js "SQS") ∧
      (publishCalls (handler env caps event) ≠ [] → event.sendTo = js "Teams") ∧
      (queueSendCalls (handler env caps event)).length ≤ 1 ∧
      (publishCalls (handler env caps event)).length ≤ 1 ∧
      ¬ (queueSendCalls (handler env caps event) ≠ [] ∧
          publishCalls (handler env caps event) ≠ []) ∧
      (event.sendTo ≠ js "SQS" → event.sendTo ≠ js "Teams" →
        queueSendCalls (handler env caps event) = [] ∧
          publishCalls (handler env caps event) = []) := by
  have hST : ¬ js "SQS" = js "Teams" := by decide
  have hTS : ¬ js "Teams" = js "SQS" := by decide
  rcases handler_delivery env caps event with ⟨_, text, hq, hp⟩ | ⟨_, hq, hp⟩
  · obtain ⟨dq, dp, _⟩ := dispatch_calls env caps text event.sendTo
    rw [hq, hp, dq, dp]
    by_cases h1 : event.sendTo = js "SQS"
    · simp [h1, hST]
    · by_cases h2 : event.sendTo = js "Teams"
      · simp [h2, hTS]
      · simp [h1, h2]
  · rw [hq, hp]
    simp

/-- Every run of the handler that does not raise makes the delivery call of its label, once:
the queue call for `SQS`, the publish call for `Teams`. -/
theorem handler_delivers_when_reached (env : ProcessEnv) (caps : Capabilities)
    (event : InboundEvent) (hreach : (handler env caps event).result = .ok ()) :
    (event.sendTo = js "SQS" → (queueSendCalls (handler env caps event)).length = 1) ∧
      (event.sendTo = js "Teams" → (publishCalls (handler env caps event)).length = 1) := by
  rcases handler_delivery env caps event with ⟨_, text, hq, hp⟩ | ⟨herr, _, _⟩
  · obtain ⟨dq, dp, _⟩ := dispatch_calls env caps text event.sendTo
    rw [hq, hp, dq, dp]
    constructor <;> intro h <;> simp [h]
  · rw [hreach] at herr
    cases herr

/-- The only runs of the handler that raise are those whose translation call is rejected. -/
theorem handler_raises_only_by_translation (env : ProcessEnv) (caps : Capabilities)
    (event : InboundEvent) (hraise : (handler env caps event).result ≠ .ok ()) :
    ∃ source e, caps.translateText env.AWS_REGION
      { Text := event.message, SourceLanguageCode := source,
        TargetLanguageCode := js "en" } = .error e := by
  have key : ∀ (pre : List Effect) (language : Option JSString),
      getLanguageCode env caps event.message = { effects := pre, result := .ok language } →
      ∃ source e, caps.translateText env.AWS_REGION
        { Text := event.message, SourceLanguageCode := source,
          TargetLanguageCode := js "en" } = .error e := by
    intro pre language hg
    by_cases hen : language = some (js "en")
    · subst hen
      rw [handler_english env caps event pre hg] at hraise
      exact absurd rfl hraise
    · cases ht : caps.translateText env.AWS_REGION
        { Text := event.message, SourceLanguageCode := language,
          TargetLanguageCode := js "en" } with
      | ok text =>
        rw [handler_translated env caps event pre _ language text hen hg
          (translateToEnglish_fulfilled env caps event.message language text ht)] at hraise
        exact absurd rfl hraise
      | error e => exact ⟨language, e, ht⟩
  cases hd : caps.detectDominantLanguage env.AWS_REGION event.message with
  | error e => exact key _ _ (getLanguageCode_rejected env caps event.message e hd)
  | ok data =>
    cases data with
    | nil => exact key _ _ (getLanguageCode_empty env caps event.message hd)
    | cons first rest =>
      exact key _ _ (getLanguageCode_detected env caps event.message first rest hd)

/-- Claim C7 fails on the code, by the defect of C8: for the label `SQS` and a rejected
translation call the handler raises a `TypeError` before it reaches its dispatch step, so
no queue call is made although the label is `SQS`; with a translation call that succeeds the
same event leads to exactly one queue call and no publish call. -/
theorem handler_queue_not_reached :
    bonjourEvent.sendTo = js "SQS" ∧
      (handler sampleEnv translationDownCaps bonjourEvent).result = .error .typeError ∧
      queueSendCalls (handler sampleEnv translationDownCaps bonjourEvent) = [] ∧
      publishCalls (handler sampleEnv translationDownCaps bonjourEvent) = [] ∧
      ¬ ((queueSendCalls (handler sampleEnv translationDownCaps bonjourEvent)).length = 1 ↔
          bonjourEvent.sendTo = js "SQS") ∧
      (handler sampleEnv frenchCaps bonjourEvent).result = .ok () ∧
      (queueSendCalls (handler sampleEnv frenchCaps bonjourEvent)).length = 1 ∧
      publishCalls (handler sampleEnv frenchCaps bonjourEvent) = [] :=
  ⟨rfl, rfl, by decide, by decide, by decide, rfl, by decide, by decide⟩

/-- Claim C8 fails on the code: the rejected translation call is caught in
`translateToEnglish`, which then returns `undefined`, and the handler raises a `TypeError`
when `translateToPigLatin` reads `message.split`. -/
theorem handler_raises_when_translation_fails :
    (translateToEnglish sampleEnv translationDownCaps (js "Bonjour") (some (js "fr"))).result =
        .ok none ∧
      (handler sampleEnv translationDownCaps bonjourEvent).result = .error .typeError ∧
      (handler sampleEnv translationDownCaps bonjourEvent).effects =
        [.consoleLog [.event bonjourEvent],
         .comprehendSend sampleEnv.AWS_REGION (js "Bonjour"),
         .consoleLog [.languages [{ LanguageCode := js "fr" }]],
         .translateSend sampleEnv.AWS_REGION
           { Text := js "Bonjour", SourceLanguageCode := some (js "fr"),
             TargetLanguageCode := js "en" },
         .consoleLog [.error (.serviceError (js "ServiceUnavailableException"))]] :=
  ⟨rfl, rfl, by decide⟩

/-- Counterexample to C9 as stated: the detection call is rejected, and the handler calls
the translation service, without a source language, and transliterates what it returned,
`Hello`, not the message `Bonjour`. -/
theorem handler_detection_failure_calls_translation :
    detectionDownCaps.detectDominantLanguage sampleEnv.AWS_REGION bonjourEvent.message =
        .error (.serviceError (js "InternalServerException")) ∧
      (getLanguageCode sampleEnv detectionDownCaps bonjourEvent.message).result = .ok none ∧
      translateCalls (handler sampleEnv detectionDownCaps bonjourEvent) =
        [{ Text := js "Bonjour", SourceLanguageCode := none, TargetLanguageCode := js "en" }] ∧
      Effect.consoleLog [.str (translateToPigLatin (js "Hello"))] ∈
        (handler sampleEnv detectionDownCaps bonjourEvent).effects ∧
      Effect.consoleLog [.str (translateToPigLatin (js "Bonjour"))] ∉
        (handler sampleEnv detectionDownCaps bonjourEvent).effects :=
  ⟨rfl, rfl, by decide, by decide, by decide⟩

/-- Claim C9, amended: when the detection call is rejected or returns no language,
`getLanguageCode` yields `undefined`; as `undefined` is not `en`, the handler makes exactly
one translation call, with the message, no source language and the target `en`, and when that
call succeeds the text it returned is what is transliterated. -/
theorem handler_detection_failure (env : ProcessEnv) (caps : Capabilities)
    (event : InboundEvent)
    (hfail : (∃ e, caps.detectDominantLanguage env.AWS_REGION event.message = .error e) ∨
      caps.detectDominantLanguage env.AWS_REGION event.message = .ok []) :
    (getLanguageCode env caps event.message).result = .ok none ∧
      translateCalls (handler env caps event) =
        [{ Text := event.message, SourceLanguageCode := none, TargetLanguageCode := js "en" }] ∧
      ∀ text : JSString,
        caps.translateText env.AWS_REGION
          { Text := event.message, SourceLanguageCode := none,
            TargetLanguageCode := js "en" } = .ok text →
        (handler env caps event).result = .ok () ∧
        (handler env caps event).effects =
          [.consoleLog [.event event]] ++ (getLanguageCode env caps event.message).effects ++
          [.translateSend env.AWS_REGION
             { Text := event.message, SourceLanguageCode := none,
               TargetLanguageCode := js "en" },
           .consoleLog [.str (translateToPigLatin text)]] ++
          (dispatch env caps (translateToPigLatin text) event.sendTo).effects := by
  have hne : (none : Option JSString) ≠ some (js "en") := by simp
  have hg : ∃ pre, getLanguageCode env caps event.message =
        { effects := pre, result := .ok none } ∧
      translateCalls ({ effects := pre, result := .ok () } : Prog Unit) = [] := by
    rcases hfail with ⟨e, he⟩ | he
    · exact ⟨_, getLanguageCode_rejected env caps event.message e he, by simp [translateCalls]⟩
    · exact ⟨_, getLanguageCode_empty env caps event.message he, by simp [translateCalls]⟩
  obtain ⟨pre, hg, hpre⟩ := hg
  simp only [translateCalls] at hpre
  refine ⟨by rw [hg], ?_, ?_⟩
  · cases ht : caps.translateText env.AWS_REGION
      { Text := event.message, SourceLanguageCode := none, TargetLanguageCode := js "en" } with
    | ok text =>
      have hd := (dispatch_calls env caps (translateToPigLatin text) event.sendTo).2.2
      simp only [translateCalls] at hd
      rw [handler_translated env caps event pre _ none text hne hg
        (translateToEnglish_fulfilled env caps event.message none text ht)]
      simp [translateCalls, hpre, hd]
    | error e =>
      rw [handler_untranslated env caps event pre _ none hne hg
        (translateToEnglish_rejected env caps event.message none e ht)]
      simp [translateCalls, hpre]
  · intro text ht
    rw [handler_translated env caps event pre _ none text hne hg
      (translateToEnglish_fulfilled env caps event.message none text ht), hg]
    exact ⟨rfl, by simp⟩

/-- Witness of C9, amended, at a rejected detection call. -/
theorem handler_detection_failure_witness :
    ((∃ e, detectionDownCaps.detectDominantLanguage sampleEnv.AWS_REGION
          bonjourEvent.message = .error e) ∨
        detectionDownCaps.detectDominantLanguage sampleEnv.AWS_REGION
          bonjourEvent.message = .ok []) ∧
      (getLanguageCode sampleEnv detectionDownCaps bonjourEvent.message).result = .ok none :=
  ⟨Or.inl ⟨_, rfl⟩,
    (handler_detection_failure sampleEnv detectionDownCaps bonjourEvent
      (Or.inl ⟨_, rfl⟩)).1⟩

/-- Claim C10: with the team name configured, the label `SQS` leads to exactly one queue
call, to the configured queue, whose body is the JSON text of the record with the two fields
`translatedMessage` and `teamName`; `sendToSQS` does not raise, whatever the queue answers;
for `elloHay` and `Rocket` the body is the JSON text of those two fields. -/
theorem sendToSQS_payload (env : ProcessEnv) (caps : Capabilities) (m t : JSString)
    (hteam : env.TeamName = some t) :
    queueSendCalls (dispatch env caps m (js "SQS")) =
        [{ QueueUrl := env.SQSQueueUrl,
           MessageBody := JSON.stringify
            [(js "translatedMessage", some m), (js "teamName", some t)] }] ∧
      queueSendCalls (sendToSQS env caps m) = queueSendCalls (dispatch env caps m (js "SQS")) ∧
      (sendToSQS env caps m).result = .ok () ∧
      (dispatch env caps m (js "SQS")).result = .ok () ∧
      JSON.stringify [(js "translatedMessage", some (js "elloHay")),
          (js "teamName", some (js "Rocket"))] =
        js "\x7b\"translatedMessage\":\"elloHay\",\"teamName\":\"Rocket\"\x7d" := by
  obtain ⟨dq, _, _⟩ := dispatch_calls env caps m (js "SQS")
  obtain ⟨sq, _, _⟩ := sendToSQS_calls env caps m
  rw [dq, sq, hteam]
  exact ⟨by simp, by simp, sendToSQS_result env caps m, dispatch_result env caps m _,
    by decide⟩

/-- Witness of C10: the message `elloHay` of team `Rocket`, sent to a queue that rejects
it. -/
theorem sendToSQS_payload_witness :
    sampleEnv.TeamName = some (js "Rocket") ∧
      queueSendCalls (dispatch sampleEnv queueDownCaps (js "elloHay") (js "SQS")) =
        [{ QueueUrl := sampleEnv.SQSQueueUrl,
           MessageBody := JSON.stringify
            [(js "translatedMessage", some (js "elloHay")),
             (js "teamName", some (js "Rocket"))] }] ∧
      (sendToSQS sampleEnv queueDownCaps (js "elloHay")).result = .ok () :=
  ⟨rfl, (sendToSQS_payload sampleEnv queueDownCaps (js "elloHay") (js "Rocket") rfl).1,
    (sendToSQS_payload sampleEnv queueDownCaps (js "elloHay") (js "Rocket") rfl).2.2.1⟩

end PigLatin
